import Mathlib

set_option autoImplicit false

/-!
Shallow embedding of the async-ops library.

The embedding follows the Rust sources module by module:

* `src/src/status.rs`   — the status state machine (`AsyncOpStatus`, `is_final`).
* `src/src/server.rs`   — the generic server core (`AsyncOpServer`), whose
  `update` carries a `debug_assert!` modelled as an `Option` (a `none` result
  is a panicking run).
* `src/src/multithread/blocking.rs` — the mutex + condition variable backend.
  The mutex-protected shared state becomes an explicit `SharedState` value
  threaded through client and server operations; the condition-variable loop
  of `wait` becomes structural recursion over the list of status updates the
  server performs while the client is blocked.
* `src/src/executor/inline.rs` — the inline callback executor.  A Rust
  closure mutating its captured environment becomes a state-transition
  function `κ → status → κ` whose state is threaded explicitly; the `Box<Any>`
  type erasure with `TypeId`-based downcast becomes a code/interpretation
  pair with decidable equality of codes.
* `src/src/multithread/callback.rs` — the callback backend.
-/

/-- Payload type family of an asynchronous operation status: one payload type
per status variant (src/src/status.rs, trait AsyncOpStatusDetails). -/
structure AsyncOpStatusDetails : Type 1 where
  PendingDetails : Type
  RunningDetails : Type
  DoneDetails : Type
  CancelledDetails : Type
  ErrorDetails : Type

/-- src/src/status.rs, enum AsyncOpError: standard and custom operation
errors. -/
inductive AsyncOpError (D : AsyncOpStatusDetails) : Type where
  | ServerKilled : AsyncOpError D
  | CustomError (details : D.ErrorDetails) : AsyncOpError D

/-- src/src/status.rs, enum AsyncOpStatus: the status of an asynchronous
operation. -/
inductive AsyncOpStatus (D : AsyncOpStatusDetails) : Type where
  | Pending (d : D.PendingDetails)
  | Running (d : D.RunningDetails)
  | Done (d : D.DoneDetails)
  | Cancelled (d : D.CancelledDetails)
  | Error (e : AsyncOpError D)

/-- src/src/status.rs, fn is_final: check if an operation status is final
(i.e. won't change anymore). -/
def is_final {D : AsyncOpStatusDetails} : AsyncOpStatus D → Bool
  | AsyncOpStatus.Pending _ => false
  | AsyncOpStatus.Running _ => false
  | AsyncOpStatus.Done _ => true
  | AsyncOpStatus.Cancelled _ => true
  | AsyncOpStatus.Error _ => true

/-- src/src/status.rs, struct NoDetails: placeholder for unneeded
asynchronous operation details. -/
structure NoDetails : Type where
deriving DecidableEq

/-- src/src/status.rs, const NO_DETAILS. -/
def NO_DETAILS : NoDetails := {}

/-- src/src/status.rs, impl AsyncOpStatusDetails for NoDetails. -/
def NoDetailsPolicy : AsyncOpStatusDetails :=
  { PendingDetails := NoDetails
    RunningDetails := NoDetails
    DoneDetails := NoDetails
    CancelledDetails := NoDetails
    ErrorDetails := NoDetails }

/-- src/src/status.rs, type StandardAsyncOpStatus. -/
def StandardAsyncOpStatus : Type := AsyncOpStatus NoDetailsPolicy

/-- src/src/status.rs, const PENDING. -/
def PENDING : StandardAsyncOpStatus := AsyncOpStatus.Pending NO_DETAILS

/-- src/src/status.rs, const RUNNING. -/
def RUNNING : StandardAsyncOpStatus := AsyncOpStatus.Running NO_DETAILS

/-- src/src/status.rs, const DONE. -/
def DONE : StandardAsyncOpStatus := AsyncOpStatus.Done NO_DETAILS

/-- src/src/status.rs, const CANCELLED. -/
def CANCELLED : StandardAsyncOpStatus := AsyncOpStatus.Cancelled NO_DETAILS

/-- src/src/status.rs, const ERROR_SERVER_KILLED. -/
def ERROR_SERVER_KILLED : StandardAsyncOpStatus :=
  AsyncOpStatus.Error AsyncOpError.ServerKilled

/-- src/src/server.rs, trait AsyncOpServerConfig: user-configurable server
behaviour.  `State` is the configuration's (shared) mutable state and
`update` its status-forwarding method; a `none` result models a panic inside
the backend's send (the type-erased callback channel can panic on a Details
mismatch). -/
structure AsyncOpServerConfig (D : AsyncOpStatusDetails) : Type 1 where
  State : Type
  update : State → AsyncOpStatus D → Option State

/-- src/src/server.rs, struct AsyncOpServer: server interface used to submit
asynchronous operation status updates. -/
structure AsyncOpServer {D : AsyncOpStatusDetails}
    (C : AsyncOpServerConfig D) : Type where
  config : C.State
  reached_final_status : Bool

/-- src/src/server.rs, AsyncOpServer::new: create a new server interface with
some initial status.  The configuration is stored untouched: nothing is
forwarded through the backend's send at construction time. -/
def AsyncOpServer.new {D : AsyncOpStatusDetails} (C : AsyncOpServerConfig D)
    (config : C.State) (initial_status : AsyncOpStatus D) : AsyncOpServer C :=
  { config := config
    reached_final_status := is_final initial_status }

/-- First half of the body of AsyncOpServer::update (src/src/server.rs line
41): `self.reached_final_status = status::is_final(&status);`. -/
def AsyncOpServer.setFlag {D : AsyncOpStatusDetails}
    {C : AsyncOpServerConfig D} (s : AsyncOpServer C)
    (status : AsyncOpStatus D) : AsyncOpServer C :=
  { s with reached_final_status := is_final status }

/-- Second half of the body of AsyncOpServer::update (src/src/server.rs line
44): `self.config.update(status);`. -/
def AsyncOpServer.forward {D : AsyncOpStatusDetails}
    {C : AsyncOpServerConfig D} (s : AsyncOpServer C)
    (status : AsyncOpStatus D) : Option (AsyncOpServer C) :=
  (C.update s.config status).map (fun c => { s with config := c })

/-- src/src/server.rs, AsyncOpServer::update: update the current status of
the asynchronous operation.  The `debug_assert!(!self.reached_final_status)`
is modelled by returning `none` (an assertion failure) when the flag is set;
otherwise the flag is recomputed first and the status forwarded second,
exactly as in the source. -/
def AsyncOpServer.update {D : AsyncOpStatusDetails}
    {C : AsyncOpServerConfig D} (s : AsyncOpServer C)
    (status : AsyncOpStatus D) : Option (AsyncOpServer C) :=
  if s.reached_final_status then none
  else (s.setFlag status).forward status

/-- src/src/server.rs, impl Drop for AsyncOpServer: if the server is killed
before the operation has reached its final status, notify the client in
order to prevent it from hanging. -/
def AsyncOpServer.drop {D : AsyncOpStatusDetails}
    {C : AsyncOpServerConfig D} (s : AsyncOpServer C) :
    Option (AsyncOpServer C) :=
  if !s.reached_final_status then
    s.update (AsyncOpStatus.Error AsyncOpError.ServerKilled)
  else some s

/-- Run a sequence of AsyncOpServer::update calls, failing (panicking) as
soon as one of them fails. -/
def runUpdates {D : AsyncOpStatusDetails} {C : AsyncOpServerConfig D}
    (s : AsyncOpServer C) : List (AsyncOpStatus D) → Option (AsyncOpServer C)
  | [] => some s
  | st :: rest =>
    match s.update st with
    | none => none
    | some s1 => runUpdates s1 rest

/-- Instrumented server configuration recording the exact list of statuses
forwarded through the backend's send, in order (the Lean counterpart of the
MockServerConfig used by the unit tests of src/src/server.rs, keeping the
whole trace instead of only the last status and a count). -/
def traceConfig (D : AsyncOpStatusDetails) : AsyncOpServerConfig D :=
  { State := List (AsyncOpStatus D)
    update := fun tr st => some (tr ++ [st]) }

/-- The status most recently recorded by the server: the last status sent,
or the initial status if nothing was sent. -/
def lastStatus {D : AsyncOpStatusDetails} (initial : AsyncOpStatus D)
    (sent : List (AsyncOpStatus D)) : AsyncOpStatus D :=
  (sent.getLast?).getD initial

/-- The value of the reached_final_status flag after a successful run of
updates starting from flag value `b`. -/
def flagAfter {D : AsyncOpStatusDetails} (b : Bool)
    (l : List (AsyncOpStatus D)) : Bool :=
  ((l.getLast?).map is_final).getD b

namespace blocking

/-- src/src/multithread/blocking.rs, struct StatusWithReadBit. -/
structure StatusWithReadBit (D : AsyncOpStatusDetails) : Type where
  status : AsyncOpStatus D
  read : Bool

/-- src/src/multithread/blocking.rs, struct SharedState: state shared between
the client and the server (the mutex and condition variable are modelled by
explicit state threading; `cancelled` is the atomic cancellation flag). -/
structure SharedState (D : AsyncOpStatusDetails) : Type where
  status_lock : StatusWithReadBit D
  cancelled : Bool

/-- Effect on the shared state of BlockingServerConfig::update
(src/src/multithread/blocking.rs lines 79-88): overwrite the pair with the
new status and `read = false`, then notify the waiters. -/
def sendUpdate {D : AsyncOpStatusDetails} (s : SharedState D)
    (st : AsyncOpStatus D) : SharedState D :=
  { s with status_lock := { status := st, read := false } }

/-- src/src/multithread/blocking.rs, impl AsyncOpServerConfig for
BlockingServerConfig: the server side of the blocking backend. -/
def BlockingServerConfig (D : AsyncOpStatusDetails) : AsyncOpServerConfig D :=
  { State := SharedState D
    update := fun s st => some (sendUpdate s st) }

/-- src/src/multithread/blocking.rs, BlockingServerConfig::cancelled: query
whether the client has cancelled the operation (atomic acquire load). -/
def BlockingServerConfig.cancelled {D : AsyncOpStatusDetails}
    (s : SharedState D) : Bool :=
  s.cancelled

/-- src/src/multithread/blocking.rs, AsyncOp::new: build the shared state
(initial status, `read = false`, `cancelled = false`) and seed the server's
flag from the initial status.  The client half shares the same state, which
is reached through `.config` in this sequential model. -/
def AsyncOp.new {D : AsyncOpStatusDetails} (initial_status : AsyncOpStatus D) :
    AsyncOpServer (BlockingServerConfig D) :=
  AsyncOpServer.new (BlockingServerConfig D)
    { status_lock := { status := initial_status, read := false }
      cancelled := false }
    initial_status

/-- Effect of marking the current operation status as read
(`status_lock.read = true` in src/src/multithread/blocking.rs). -/
def markRead {D : AsyncOpStatusDetails} (s : SharedState D) : SharedState D :=
  { s with status_lock := { s.status_lock with read := true } }

/-- src/src/multithread/blocking.rs, AsyncOpClient::status: access the
current operation status, mark it as read, and return a copy of it. -/
def AsyncOpClient.status {D : AsyncOpStatusDetails} (s : SharedState D) :
    AsyncOpStatus D × SharedState D :=
  (s.status_lock.status, markRead s)

/-- src/src/multithread/blocking.rs, AsyncOpClient::wait: wait for either a
status update or a final operation status.  The condition-variable loop
`while read && !is_final(status)` is modelled by recursion over `pending`,
the list of statuses the server sends (one per wake-up) while the client is
blocked; `none` means the client blocks forever (no update ever arrives). -/
def AsyncOpClient.wait {D : AsyncOpStatusDetails}
    (pending : List (AsyncOpStatus D)) (s : SharedState D) :
    Option (AsyncOpStatus D × SharedState D) :=
  if s.status_lock.read && !is_final s.status_lock.status then
    match pending with
    | [] => none
    | st :: rest => AsyncOpClient.wait rest (sendUpdate s st)
  else
    some (s.status_lock.status, markRead s)

/-- src/src/multithread/blocking.rs, impl IAsyncOpClient for AsyncOpClient:
request the cancellation of the operation (atomic release store of true). -/
def AsyncOpClient.cancel {D : AsyncOpStatusDetails} (s : SharedState D) :
    SharedState D :=
  { s with cancelled := true }

/-- One interleaved client/server operation touching the blocking backend's
shared state (used to reason about the cancellation flag's lifetime). -/
inductive ClientServerOp (D : AsyncOpStatusDetails) : Type where
  | cancelOp : ClientServerOp D
  | statusOp : ClientServerOp D
  | sendOp (st : AsyncOpStatus D) : ClientServerOp D

/-- Apply one interleaved operation to the shared state. -/
def applyOp {D : AsyncOpStatusDetails} (s : SharedState D) :
    ClientServerOp D → SharedState D
  | ClientServerOp.cancelOp => AsyncOpClient.cancel s
  | ClientServerOp.statusOp => (AsyncOpClient.status s).2
  | ClientServerOp.sendOp st => sendUpdate s st

/-- Apply a sequence of interleaved operations to the shared state. -/
def runOps {D : AsyncOpStatusDetails} (s : SharedState D) :
    List (ClientServerOp D) → SharedState D
  | [] => s
  | op :: rest => runOps (applyOp s op) rest

/-- Whether a sequence of interleaved operations contains a cancel request. -/
def hasCancel {D : AsyncOpStatusDetails} : List (ClientServerOp D) → Bool
  | [] => false
  | ClientServerOp.cancelOp :: _ => true
  | _ :: rest => hasCancel rest

end blocking

namespace inline

/-- src/src/executor/inline.rs, struct InlineCallbackChannel: a callback
channel which invokes an internal callback whenever a new operation status is
pushed into it.  The Rust closure's captured mutable environment (the `Cell`
of the tests) is modelled as an explicit state `cbState : κ` transformed by
the callback. -/
structure InlineCallbackChannel (D : AsyncOpStatusDetails) (κ : Type) :
    Type where
  callback : κ → AsyncOpStatus D → κ
  cbState : κ

/-- src/src/executor/inline.rs, impl CallbackChannel for
InlineCallbackChannel: `notify` invokes the stored callback immediately, on
the caller's side. -/
def InlineCallbackChannel.notify {D : AsyncOpStatusDetails} {κ : Type}
    (ch : InlineCallbackChannel D κ) (new_status : AsyncOpStatus D) :
    InlineCallbackChannel D κ :=
  { ch with cbState := ch.callback ch.cbState new_status }

/-- src/src/executor/inline.rs, struct AnyInlineCallbackChannel: the
`Box<Any>` holder is modelled as a pair of a runtime type code (the `TypeId`
of the concrete Details policy, drawn from a type `Code` with decidable
equality) and a channel typed at that code's interpretation. -/
structure AnyInlineCallbackChannel (Code : Type)
    (interp : Code → AsyncOpStatusDetails) (κ : Type) : Type where
  code : Code
  holder : InlineCallbackChannel (interp code) κ

/-- src/src/executor/inline.rs, AnyInlineCallbackChannel::is_compatible:
check if the channel was configured for the right operation status type
(`self.holder.is::<InlineCallbackChannel<Details>>()`). -/
def AnyInlineCallbackChannel.is_compatible {Code : Type}
    {interp : Code → AsyncOpStatusDetails} {κ : Type} [DecidableEq Code]
    (ch : AnyInlineCallbackChannel Code interp κ) (D : Code) : Bool :=
  decide (ch.code = D)

/-- src/src/executor/inline.rs, AnyInlineCallbackChannel::notify: downcast
the holder to `InlineCallbackChannel<Details>` and invoke it; the
`.downcast_mut(...).unwrap()` panics (`none`) when the requested Details code
does not match the construction-time one. -/
def AnyInlineCallbackChannel.notify {Code : Type}
    {interp : Code → AsyncOpStatusDetails} {κ : Type} [DecidableEq Code]
    (ch : AnyInlineCallbackChannel Code interp κ) (D : Code)
    (new_status : AsyncOpStatus (interp D)) :
    Option (AnyInlineCallbackChannel Code interp κ) :=
  if h : ch.code = D then
    some { code := ch.code
           holder := ch.holder.notify (by rw [h]; exact new_status) }
  else none

/-- src/src/executor/inline.rs, struct InlineCallbackExecutor. -/
structure InlineCallbackExecutor : Type where

/-- src/src/executor/inline.rs, InlineCallbackExecutor::setup_callback: wrap
the callback in an InlineCallbackChannel and erase its Details type behind an
AnyInlineCallbackChannel.  `k` is the callback's initial captured state. -/
def InlineCallbackExecutor.setup_callback {Code : Type}
    {interp : Code → AsyncOpStatusDetails} {κ : Type}
    (_e : InlineCallbackExecutor) (D : Code)
    (callback : κ → AsyncOpStatus (interp D) → κ) (k : κ) :
    AnyInlineCallbackChannel Code interp κ :=
  { code := D
    holder := { callback := callback, cbState := k } }

end inline

namespace callback

open inline

/-- src/src/multithread/callback.rs, impl AsyncOpServerConfig for
CallbackServerConfig: the config's state is the type-erased callback channel
together with the shared cancellation flag; `update` is
`self.channel.notify(status)` (which panics on a Details mismatch). -/
def CallbackServerConfig (Code : Type) [DecidableEq Code]
    (interp : Code → AsyncOpStatusDetails) (κ : Type) (D : Code) :
    AsyncOpServerConfig (interp D) :=
  { State := AnyInlineCallbackChannel Code interp κ × Bool
    update := fun s st => (s.1.notify D st).map (fun ch => (ch, s.2)) }

/-- src/src/multithread/callback.rs, CallbackServerConfig::cancelled: query
whether the client has cancelled the operation (atomic acquire load). -/
def CallbackServerConfig.cancelled {Code : Type}
    {interp : Code → AsyncOpStatusDetails} {κ : Type}
    (s : AnyInlineCallbackChannel Code interp κ × Bool) : Bool :=
  s.2

/-- src/src/multithread/callback.rs, fn new_async_op: set up a callback
channel on the executor, a fresh cancellation flag (false), and build the
server with the given initial status.  The client half holds the same flag;
in this sequential model the flag lives in the server config's state. -/
def new_async_op {Code : Type} [DecidableEq Code]
    {interp : Code → AsyncOpStatusDetails} {κ : Type} (D : Code)
    (callback : κ → AsyncOpStatus (interp D) → κ) (k : κ)
    (executor : InlineCallbackExecutor)
    (initial_status : AsyncOpStatus (interp D)) :
    AsyncOpServer (CallbackServerConfig Code interp κ D) :=
  AsyncOpServer.new (CallbackServerConfig Code interp κ D)
    (executor.setup_callback D callback k, false)
    initial_status

/-- src/src/multithread/callback.rs, impl IAsyncOpClient for AsyncOpClient:
the client's cancel stores true into the shared flag. -/
def AsyncOpClient.cancel {Code : Type}
    {interp : Code → AsyncOpStatusDetails} {κ : Type}
    (s : AnyInlineCallbackChannel Code interp κ × Bool) :
    AnyInlineCallbackChannel Code interp κ × Bool :=
  (s.1, true)

end callback

/-- A second Details policy with informative payloads, used as the
incompatible Details type in type-erasure countertests. -/
def NatDetailsPolicy : AsyncOpStatusDetails :=
  { PendingDetails := Nat
    RunningDetails := Nat
    DoneDetails := Nat
    CancelledDetails := Nat
    ErrorDetails := Nat }

/-- A two-point code universe for the type-erased channel: the codes of the
NoDetails policy and of the Nat policy. -/
def stdInterp : Bool → AsyncOpStatusDetails
  | true => NoDetailsPolicy
  | false => NatDetailsPolicy

/-- A logging callback over the standard status type: its captured state is
the list of statuses it has been invoked with, in order (the Lean
counterpart of the counter cell used in the unit tests of
src/src/executor/inline.rs). -/
def stdLogCb (log : List StandardAsyncOpStatus) (st : StandardAsyncOpStatus) :
    List StandardAsyncOpStatus :=
  log ++ [st]

/-- A concrete type-erased channel built for the NoDetails policy over the
two-point code universe. -/
def stdChannel : inline.AnyInlineCallbackChannel Bool stdInterp
    (List StandardAsyncOpStatus) :=
  inline.InlineCallbackExecutor.setup_callback {} true stdLogCb []

/-- A concrete callback-backend operation for the NoDetails policy with the
logging callback. -/
def stdCallbackOp (initial : StandardAsyncOpStatus) :
    AsyncOpServer (callback.CallbackServerConfig Bool stdInterp
      (List StandardAsyncOpStatus) true) :=
  callback.new_async_op true stdLogCb [] {} initial

/-! ## Helper lemmas about the generic server core -/

/-- update on a finalized server trips the assertion. -/
theorem update_none_of_final {D : AsyncOpStatusDetails}
    {C : AsyncOpServerConfig D} (s : AsyncOpServer C)
    (st : AsyncOpStatus D) (h : s.reached_final_status = true) :
    s.update st = none := by
  simp [AsyncOpServer.update, h]

/-- update on an active server recomputes the flag and forwards the status. -/
theorem update_eq_of_active {D : AsyncOpStatusDetails}
    {C : AsyncOpServerConfig D} (s : AsyncOpServer C)
    (st : AsyncOpStatus D) (h : s.reached_final_status = false) :
    s.update st = (C.update s.config st).map
      (fun c => { config := c, reached_final_status := is_final st }) := by
  simp [AsyncOpServer.update, AsyncOpServer.setFlag, AsyncOpServer.forward, h]

/-- A successful update implies the server was active, and sets the flag to
the terminality of the submitted status. -/
theorem update_some_flag {D : AsyncOpStatusDetails}
    {C : AsyncOpServerConfig D} (s s1 : AsyncOpServer C)
    (st : AsyncOpStatus D) (h : s.update st = some s1) :
    s.reached_final_status = false ∧
      s1.reached_final_status = is_final st := by
  by_cases hf : s.reached_final_status
  · rw [update_none_of_final s st hf] at h
    exact absurd h (by simp)
  · rw [update_eq_of_active s st (by simpa using hf)] at h
    refine ⟨by simpa using hf, ?_⟩
    cases hC : C.update s.config st with
    | none => rw [hC] at h; exact absurd h (by simp)
    | some c =>
      rw [hC] at h
      have h2 : ({ config := c, reached_final_status := is_final st } :
          AsyncOpServer C) = s1 := by simpa using h
      rw [h2.symm]

/-- Unfolding lemma: a run step over a successful update. -/
theorem runUpdates_cons_some {D : AsyncOpStatusDetails}
    {C : AsyncOpServerConfig D} (s s1 : AsyncOpServer C)
    (st : AsyncOpStatus D) (rest : List (AsyncOpStatus D))
    (h : s.update st = some s1) :
    runUpdates s (st :: rest) = runUpdates s1 rest := by
  simp [runUpdates, h]

/-- Unfolding lemma: a run step over a failing update. -/
theorem runUpdates_cons_none {D : AsyncOpStatusDetails}
    {C : AsyncOpServerConfig D} (s : AsyncOpServer C)
    (st : AsyncOpStatus D) (rest : List (AsyncOpStatus D))
    (h : s.update st = none) :
    runUpdates s (st :: rest) = none := by
  simp [runUpdates, h]

/-- flagAfter distributes over cons. -/
theorem flagAfter_cons {D : AsyncOpStatusDetails} (b : Bool)
    (st : AsyncOpStatus D) (rest : List (AsyncOpStatus D)) :
    flagAfter b (st :: rest) = flagAfter (is_final st) rest := by
  cases rest with
  | nil => rfl
  | cons st2 rest2 =>
    simp [flagAfter, List.getLast?_cons_cons, List.getLast?_cons]

/-- Invariant of a successful run over the instrumented trace configuration:
the trace accumulates exactly the submitted statuses, in order, and the flag
tracks the terminality of the last one. -/
theorem runUpdates_trace_inv {D : AsyncOpStatusDetails}
    (l : List (AsyncOpStatus D)) :
    ∀ (tr : List (AsyncOpStatus D)) (b : Bool)
      (s' : AsyncOpServer (traceConfig D)),
      runUpdates (⟨tr, b⟩ : AsyncOpServer (traceConfig D)) l = some s' →
      s'.config = tr ++ l ∧ s'.reached_final_status = flagAfter b l := by
  induction l with
  | nil =>
    intro tr b s' h
    simp only [runUpdates, Option.some_inj] at h
    rw [h.symm]
    exact ⟨by simp, by simp [flagAfter]⟩
  | cons st rest ih =>
    intro tr b s' h
    cases b with
    | true =>
      rw [show runUpdates (⟨tr, true⟩ : AsyncOpServer (traceConfig D))
            (st :: rest) = none by
          simp [runUpdates, update_none_of_final]] at h
      exact absurd h (by simp)
    | false =>
      have hstep : (⟨tr, false⟩ : AsyncOpServer (traceConfig D)).update st =
          some ⟨tr ++ [st], is_final st⟩ := by
        rw [update_eq_of_active _ st rfl]
        simp [traceConfig]
      rw [runUpdates_cons_some _ _ _ _ hstep] at h
      obtain ⟨h1, h2⟩ := ih (tr ++ [st]) (is_final st) s' h
      exact ⟨by simpa [List.append_assoc] using h1,
             by rw [h2, flagAfter_cons]⟩

/-- Once a terminal status has been accepted by the server core, no later
update is ever accepted: in any successful run, a terminal status can only
sit in the last position. -/
theorem runUpdates_final_is_last {D : AsyncOpStatusDetails}
    {C : AsyncOpServerConfig D} (l1 : List (AsyncOpStatus D)) :
    ∀ (st : AsyncOpStatus D) (l2 : List (AsyncOpStatus D))
      (s s' : AsyncOpServer C),
      runUpdates s (l1 ++ st :: l2) = some s' → is_final st = true →
      l2 = [] := by
  induction l1 with
  | nil =>
    intro st l2 s s' h hfin
    rw [List.nil_append] at h
    cases hu : s.update st with
    | none =>
      rw [runUpdates_cons_none _ _ _ hu] at h
      exact absurd h (by simp)
    | some s1 =>
      rw [runUpdates_cons_some _ _ _ _ hu] at h
      have hflag := (update_some_flag s s1 st hu).2
      cases l2 with
      | nil => rfl
      | cons st2 rest2 =>
        rw [runUpdates_cons_none _ _ _
          (update_none_of_final s1 st2 (by rw [hflag, hfin]))] at h
        exact absurd h (by simp)
  | cons st0 rest0 ih =>
    intro st l2 s s' h hfin
    rw [List.cons_append] at h
    cases hu : s.update st0 with
    | none =>
      rw [runUpdates_cons_none _ _ _ hu] at h
      exact absurd h (by simp)
    | some s1 =>
      rw [runUpdates_cons_some _ _ _ _ hu] at h
      exact ih st l2 s1 s' h hfin

/-- A run of updates whose every status except possibly the last is
non-final succeeds on an active server, and forwards each status to the
backend in order, provided the backend's send cannot panic on the states it
actually reaches (invariant `P`). -/
theorem runUpdates_eq_of_inv {D : AsyncOpStatusDetails}
    {C : AsyncOpServerConfig D} (f : C.State → AsyncOpStatus D → C.State)
    (P : C.State → Prop)
    (hP : ∀ cfg st, P cfg → C.update cfg st = some (f cfg st) ∧ P (f cfg st))
    (l : List (AsyncOpStatus D)) :
    ∀ (cfg : C.State), P cfg →
      (∀ st ∈ l.dropLast, is_final st = false) →
      runUpdates (⟨cfg, false⟩ : AsyncOpServer C) l =
        some ⟨l.foldl f cfg, flagAfter false l⟩ := by
  induction l with
  | nil =>
    intro cfg _ _
    simp [runUpdates, flagAfter]
  | cons st rest ih =>
    intro cfg hcfg hb
    have hstep : (⟨cfg, false⟩ : AsyncOpServer C).update st =
        some ⟨f cfg st, is_final st⟩ := by
      rw [update_eq_of_active _ st rfl, (hP cfg st hcfg).1]
      simp
    cases rest with
    | nil =>
      rw [runUpdates_cons_some _ _ _ _ hstep]
      simp [runUpdates, flagAfter]
    | cons st2 rest2 =>
      have hst : is_final st = false := by
        apply hb
        simp [List.dropLast_cons_of_ne_nil]
      rw [runUpdates_cons_some _ _ _ _ hstep, hst]
      rw [ih (f cfg st) (hP cfg st hcfg).2
        (by intro x hx
            apply hb
            rw [List.dropLast_cons_of_ne_nil (by simp)]
            exact List.mem_cons_of_mem _ hx)]
      simp [flagAfter_cons, hst]

/-- Dropping an active server performs one forced finalization update. -/
theorem drop_eq_of_active {D : AsyncOpStatusDetails}
    {C : AsyncOpServerConfig D} (s : AsyncOpServer C)
    (h : s.reached_final_status = false) :
    s.drop = s.update (AsyncOpStatus.Error AsyncOpError.ServerKilled) := by
  simp [AsyncOpServer.drop, h]

/-- Dropping a finalized server sends nothing and leaves it unchanged. -/
theorem drop_eq_of_final {D : AsyncOpStatusDetails}
    {C : AsyncOpServerConfig D} (s : AsyncOpServer C)
    (h : s.reached_final_status = true) :
    s.drop = some s := by
  simp [AsyncOpServer.drop, h]

/-- Whatever state drop completes in is finalized. -/
theorem drop_flag {D : AsyncOpStatusDetails} {C : AsyncOpServerConfig D}
    (s s2 : AsyncOpServer C) (h : s.drop = some s2) :
    s2.reached_final_status = true := by
  by_cases hf : s.reached_final_status
  · rw [drop_eq_of_final s hf] at h
    simp only [Option.some_inj] at h
    rw [h.symm]
    exact hf
  · rw [drop_eq_of_active s (by simpa using hf)] at h
    exact (update_some_flag s s2 _ h).2

/-- The flag value after a run started from the initial status's terminality
is the terminality of the most recently recorded status. -/
theorem flagAfter_eq_lastStatus {D : AsyncOpStatusDetails}
    (initial : AsyncOpStatus D) (l : List (AsyncOpStatus D)) :
    flagAfter (is_final initial) l = is_final (lastStatus initial l) := by
  cases h : l.getLast? with
  | none => simp [flagAfter, lastStatus, h]
  | some x => simp [flagAfter, lastStatus, h]

/-- Analogue of the update equation for the trace instrumentation. -/
theorem trace_update_eq {D : AsyncOpStatusDetails}
    (tr : List (AsyncOpStatus D)) (st : AsyncOpStatus D) :
    (⟨tr, false⟩ : AsyncOpServer (traceConfig D)).update st =
      some ⟨tr ++ [st], is_final st⟩ := by
  rw [update_eq_of_active _ st rfl]
  simp [traceConfig]

/-! ## Claims about the generic server core -/

/-- Claim C3: calling update on a server that has already reached a terminal
status (state Finalized) fails loudly via an assertion; on every Active
server, update recomputes the state from the terminality of the submitted
status and forwards that status to the backend's send. -/
theorem C3_update_precondition {D : AsyncOpStatusDetails}
    {C : AsyncOpServerConfig D} (s : AsyncOpServer C) (st : AsyncOpStatus D) :
    (s.reached_final_status = true → s.update st = none) ∧
    (s.reached_final_status = false →
      s.update st = (C.update s.config st).map
        (fun c => { config := c, reached_final_status := is_final st })) :=
  ⟨update_none_of_final s st, update_eq_of_active s st⟩

/-- Claim C3, witness: a finalized standard server rejects a further DONE,
and an active one forwards RUNNING and stays active. -/
theorem C3_update_precondition_witness :
    ((⟨[], true⟩ : AsyncOpServer (traceConfig NoDetailsPolicy)).update DONE
       = none) ∧
    ((⟨[], false⟩ : AsyncOpServer (traceConfig NoDetailsPolicy)).update RUNNING
       = some ⟨[RUNNING], false⟩) := by
  refine ⟨(C3_update_precondition _ DONE).1 rfl, ?_⟩
  have h := (C3_update_precondition
    (⟨[], false⟩ : AsyncOpServer (traceConfig NoDetailsPolicy)) RUNNING).2 rfl
  rw [h]
  rfl

/-- Claim C8: at every reachable point of a server's lifetime (after
construction, after each successful update, and after drop), the
reached_final_status flag equals is_final applied to the most recently
recorded status (the initial status if update was never called); moreover
update consists of setting the flag first and forwarding second, and the
intermediate state handed to the forwarding step already carries
is_final(status). -/
theorem C8_flag_invariant {D : AsyncOpStatusDetails}
    (initial : AsyncOpStatus D) (l : List (AsyncOpStatus D))
    (s' : AsyncOpServer (traceConfig D)) :
    ((AsyncOpServer.new (traceConfig D) [] initial).reached_final_status
       = is_final (lastStatus initial [])) ∧
    (runUpdates (AsyncOpServer.new (traceConfig D) [] initial) l = some s' →
      s'.reached_final_status = is_final (lastStatus initial s'.config)) ∧
    (∀ s'' : AsyncOpServer (traceConfig D),
      runUpdates (AsyncOpServer.new (traceConfig D) [] initial) l = some s' →
      s'.drop = some s'' →
      s''.reached_final_status = is_final (lastStatus initial s''.config)) ∧
    (∀ (C : AsyncOpServerConfig D) (s : AsyncOpServer C)
       (st : AsyncOpStatus D),
      s.reached_final_status = false →
      s.update st = (s.setFlag st).forward st ∧
      (s.setFlag st).reached_final_status = is_final st) := by
  refine ⟨by simp [AsyncOpServer.new, lastStatus], ?_, ?_, ?_⟩
  · intro h
    obtain ⟨h1, h2⟩ := runUpdates_trace_inv l [] (is_final initial) s' h
    rw [h2, h1, List.nil_append, flagAfter_eq_lastStatus]
  · intro s'' h hdrop
    obtain ⟨h1, h2⟩ := runUpdates_trace_inv l [] (is_final initial) s' h
    rw [List.nil_append] at h1
    by_cases hf : s'.reached_final_status
    · rw [drop_eq_of_final s' hf] at hdrop
      simp only [Option.some_inj] at hdrop
      rw [hdrop.symm, h2, h1, flagAfter_eq_lastStatus]
    · have hf2 : s'.reached_final_status = false := by simpa using hf
      have hdrop2 :
          (⟨l ++ [AsyncOpStatus.Error AsyncOpError.ServerKilled],
            true⟩ : AsyncOpServer (traceConfig D)) = s'' := by
        rw [drop_eq_of_active s' hf2, update_eq_of_active s' _ hf2] at hdrop
        rw [h1.symm]
        simpa [traceConfig, is_final] using hdrop
      rw [hdrop2.symm]
      simp only [lastStatus]
      rw [List.getLast?_concat]
      rfl
  · intro C s st hact
    refine ⟨?_, by simp [AsyncOpServer.setFlag]⟩
    simp [AsyncOpServer.update, hact]

/-- Claim C8, witness: applied to PENDING followed by one DONE update and a
drop. -/
theorem C8_flag_invariant_witness :
    ((⟨[DONE], true⟩ :
        AsyncOpServer (traceConfig NoDetailsPolicy)).reached_final_status
      = is_final (lastStatus PENDING
          ((⟨[DONE], true⟩ :
              AsyncOpServer (traceConfig NoDetailsPolicy)).config))) ∧
    ((⟨[DONE], true⟩ :
        AsyncOpServer (traceConfig NoDetailsPolicy)).reached_final_status
      = is_final (lastStatus PENDING [DONE])) := by
  constructor
  · exact (C8_flag_invariant PENDING [DONE] ⟨[DONE], true⟩).2.1 rfl
  · exact (C8_flag_invariant PENDING [DONE] ⟨[DONE], true⟩).2.2.1
      ⟨[DONE], true⟩ rfl rfl

/-- Claim C1: if the server half is destroyed while the tracked status is
still non-terminal (Pending or Running), drop synthesizes
Error(ServerKilled), transitions to Finalized, and forwards it through the
backend's send, making it the next and final delivered status; if the
tracked status is already terminal at destruction time, nothing is sent.
The dropped server accepts no further status in either case. -/
theorem C1_drop_guarantee {D : AsyncOpStatusDetails}
    (initial : AsyncOpStatus D) (l : List (AsyncOpStatus D))
    (s' : AsyncOpServer (traceConfig D))
    (h : runUpdates (AsyncOpServer.new (traceConfig D) [] initial) l
      = some s') :
    (is_final (lastStatus initial l) = false →
      s'.drop = some ⟨l ++ [AsyncOpStatus.Error AsyncOpError.ServerKilled],
        true⟩) ∧
    (is_final (lastStatus initial l) = true →
      s'.drop = some s' ∧ s'.config = l) ∧
    (∀ (s'' : AsyncOpServer (traceConfig D)) (st : AsyncOpStatus D),
      s'.drop = some s'' → s''.update st = none) := by
  obtain ⟨h1, h2⟩ := runUpdates_trace_inv l [] (is_final initial) s' h
  rw [List.nil_append] at h1
  have hflag : s'.reached_final_status = is_final (lastStatus initial l) := by
    rw [h2, flagAfter_eq_lastStatus]
  refine ⟨?_, ?_, ?_⟩
  · intro hnf
    have hf2 : s'.reached_final_status = false := by rw [hflag, hnf]
    rw [drop_eq_of_active s' hf2, update_eq_of_active s' _ hf2, h1]
    rfl
  · intro ht
    exact ⟨drop_eq_of_final s' (by rw [hflag, ht]), h1⟩
  · intro s'' st hdrop
    exact update_none_of_final s'' st (drop_flag s' s'' hdrop)

/-- Claim C1, witness: a fresh Pending operation whose server is dropped at
once delivers ERROR_SERVER_KILLED, and the dropped server rejects any
further status. -/
theorem C1_drop_guarantee_witness :
    ((⟨[], false⟩ : AsyncOpServer (traceConfig NoDetailsPolicy)).drop
       = some ⟨[ERROR_SERVER_KILLED], true⟩) ∧
    ((⟨[ERROR_SERVER_KILLED], true⟩ :
        AsyncOpServer (traceConfig NoDetailsPolicy)).update DONE = none) := by
  constructor
  · exact (C1_drop_guarantee PENDING [] ⟨[], false⟩ rfl).1 rfl
  · exact (C1_drop_guarantee PENDING [] ⟨[], false⟩ rfl).2.2
      ⟨[ERROR_SERVER_KILLED], true⟩ DONE rfl

/-- Claim C2: for every backend (any server configuration) and every
sequence of operations, once a terminal status has been stored no later
status is ever delivered: a terminal initial status admits no update call at
all, in any successful update sequence a terminal status is necessarily the
last one delivered, and dropping a finalized server delivers nothing
further. -/
theorem C2_terminal_sticky {D : AsyncOpStatusDetails}
    (C : AsyncOpServerConfig D) (cfg : C.State) (initial : AsyncOpStatus D)
    (l : List (AsyncOpStatus D)) (s' : AsyncOpServer C)
    (h : runUpdates (AsyncOpServer.new C cfg initial) l = some s') :
    (is_final initial = true → l = []) ∧
    (∀ (l1 : List (AsyncOpStatus D)) (st : AsyncOpStatus D)
       (l2 : List (AsyncOpStatus D)),
      l = l1 ++ st :: l2 → is_final st = true → l2 = []) ∧
    (s'.reached_final_status = true → s'.drop = some s') := by
  refine ⟨?_, ?_, drop_eq_of_final s'⟩
  · intro hinit
    cases l with
    | nil => rfl
    | cons st rest =>
      rw [runUpdates_cons_none _ st rest (update_none_of_final _ st
        (by simp [AsyncOpServer.new, hinit]))] at h
      exact absurd h (by simp)
  · intro l1 st l2 hl hst
    rw [hl] at h
    exact runUpdates_final_is_last l1 st l2 _ s' h hst

/-- Claim C2, witness: after PENDING and a DONE update, the server is
finalized, its drop delivers nothing, and the terminal DONE is last. -/
theorem C2_terminal_sticky_witness :
    ((⟨[DONE], true⟩ : AsyncOpServer (traceConfig NoDetailsPolicy)).drop
       = some ⟨[DONE], true⟩) ∧
    ([] : List StandardAsyncOpStatus) = [] := by
  constructor
  · exact (C2_terminal_sticky (traceConfig NoDetailsPolicy) [] PENDING
      [DONE] ⟨[DONE], true⟩ rfl).2.2 rfl
  · exact (C2_terminal_sticky (traceConfig NoDetailsPolicy) [] PENDING
      [DONE] ⟨[DONE], true⟩ rfl).2.1 [] DONE [] rfl rfl

/-! ## Claims about the blocking backend -/

/-- Claim C4 (amended): for the blocking backend, wait returns without
blocking iff the stored read bit is false or the stored status is terminal;
otherwise it blocks on the condition variable until an update arrives; on
return it sets the read bit and returns a clone of the stored status; once a
terminal status is stored, wait never blocks again, regardless of the read
bit.  A status() followed by wait() with no intervening update() returns
immediately with the same value when the stored status is terminal; when it
is non-terminal, that wait() blocks until an update arrives. -/
theorem C4_wait_contract {D : AsyncOpStatusDetails}
    (s : blocking.SharedState D) :
    ((∃ r, blocking.AsyncOpClient.wait [] s = some r) ↔
      (s.status_lock.read = false ∨ is_final s.status_lock.status = true)) ∧
    ((s.status_lock.read = false ∨ is_final s.status_lock.status = true) →
      ∀ pending : List (AsyncOpStatus D),
        blocking.AsyncOpClient.wait pending s =
          some (s.status_lock.status, blocking.markRead s)) ∧
    (s.status_lock.read = true → is_final s.status_lock.status = false →
      blocking.AsyncOpClient.wait [] s = none) ∧
    (s.status_lock.read = true → is_final s.status_lock.status = false →
      ∀ (st : AsyncOpStatus D) (rest : List (AsyncOpStatus D)),
        blocking.AsyncOpClient.wait (st :: rest) s =
          blocking.AsyncOpClient.wait rest (blocking.sendUpdate s st)) ∧
    (is_final s.status_lock.status = true →
      ∀ pending : List (AsyncOpStatus D),
        blocking.AsyncOpClient.wait pending
            ((blocking.AsyncOpClient.status s).2) =
          some (s.status_lock.status,
            blocking.markRead ((blocking.AsyncOpClient.status s).2))) ∧
    (is_final s.status_lock.status = false →
      blocking.AsyncOpClient.wait []
        ((blocking.AsyncOpClient.status s).2) = none) := by
  have himm : (s.status_lock.read = false ∨
      is_final s.status_lock.status = true) →
      ∀ pending : List (AsyncOpStatus D),
        blocking.AsyncOpClient.wait pending s =
          some (s.status_lock.status, blocking.markRead s) := by
    intro h pending
    rw [blocking.AsyncOpClient.wait.eq_def]
    rcases h with h | h
    · simp [h]
    · simp [h]
  have hblock : s.status_lock.read = true →
      is_final s.status_lock.status = false →
      blocking.AsyncOpClient.wait [] s = none := by
    intro h1 h2
    rw [blocking.AsyncOpClient.wait.eq_def]
    simp [h1, h2]
  refine ⟨?_, himm, hblock, ?_, ?_, ?_⟩
  · constructor
    · rintro ⟨r, hr⟩
      by_cases h1 : s.status_lock.read = true
      · by_cases h2 : is_final s.status_lock.status = true
        · exact Or.inr h2
        · rw [hblock h1 (by simpa using h2)] at hr
          exact absurd hr (by simp)
      · exact Or.inl (by simpa using h1)
    · intro h
      exact ⟨_, himm h []⟩
  · intro h1 h2 st rest
    rw [blocking.AsyncOpClient.wait.eq_def]
    simp [h1, h2]
  · intro hfin pending
    rw [blocking.AsyncOpClient.wait.eq_def]
    simp [blocking.AsyncOpClient.status, blocking.markRead, hfin]
  · intro hfin
    rw [blocking.AsyncOpClient.wait.eq_def]
    simp [blocking.AsyncOpClient.status, blocking.markRead, hfin]

/-- Claim C4, witness: with DONE stored and already read, wait returns it at
once; with PENDING stored and already read, wait blocks. -/
theorem C4_wait_contract_witness :
    (blocking.AsyncOpClient.wait []
        (⟨⟨DONE, true⟩, false⟩ : blocking.SharedState NoDetailsPolicy) =
      some (DONE, ⟨⟨DONE, true⟩, false⟩)) ∧
    (blocking.AsyncOpClient.wait []
        (⟨⟨PENDING, true⟩, false⟩ : blocking.SharedState NoDetailsPolicy) =
      none) := by
  constructor
  · exact (C4_wait_contract ⟨⟨DONE, true⟩, false⟩).2.1 (Or.inr rfl) []
  · exact (C4_wait_contract ⟨⟨PENDING, true⟩, false⟩).2.2.1 rfl rfl

/-- Claim C4, counterexample: with the non-terminal PENDING stored, status()
followed by wait() with no intervening update() does not return immediately
with the same value; the wait blocks (with no update ever arriving it never
returns), refuting the claim's unconditional status-then-wait clause. -/
theorem C4_wait_counterexample :
    blocking.AsyncOpClient.wait []
      ((blocking.AsyncOpClient.status
        ((blocking.AsyncOp.new PENDING).config)).2) = none := rfl

/-- Claim C10: the blocking backend initializes the shared state with the
read bit false, so for every initial status (terminal or not) the client's
first wait, with no intervening update or status call, returns the initial
status immediately without blocking. -/
theorem C10_first_wait_immediate {D : AsyncOpStatusDetails}
    (initial : AsyncOpStatus D) :
    ((blocking.AsyncOp.new initial).config.status_lock.read = false) ∧
    (∀ pending : List (AsyncOpStatus D),
      blocking.AsyncOpClient.wait pending
          ((blocking.AsyncOp.new initial).config) =
        some (initial,
          blocking.markRead ((blocking.AsyncOp.new initial).config))) := by
  refine ⟨rfl, ?_⟩
  intro pending
  rw [blocking.AsyncOpClient.wait.eq_def]
  simp [blocking.AsyncOp.new, AsyncOpServer.new]

/-- The cancellation flag after any interleaving of cancel, status-read and
send operations is the initial flag joined with whether a cancel occurred. -/
theorem runOps_cancelled {D : AsyncOpStatusDetails}
    (ops : List (blocking.ClientServerOp D)) :
    ∀ s : blocking.SharedState D,
      (blocking.runOps s ops).cancelled =
        (s.cancelled || blocking.hasCancel ops) := by
  induction ops with
  | nil =>
    intro s
    simp [blocking.runOps, blocking.hasCancel]
  | cons op rest ih =>
    intro s
    cases op with
    | cancelOp =>
      simp [blocking.runOps, blocking.applyOp, blocking.AsyncOpClient.cancel,
        blocking.hasCancel, ih]
    | statusOp =>
      simp [blocking.runOps, blocking.applyOp, blocking.AsyncOpClient.status,
        blocking.markRead, blocking.hasCancel, ih]
    | sendOp st =>
      simp [blocking.runOps, blocking.applyOp, blocking.sendUpdate,
        blocking.hasCancel, ih]

/-- wait never touches the cancellation flag. -/
theorem wait_preserves_cancelled {D : AsyncOpStatusDetails}
    (pending : List (AsyncOpStatus D)) :
    ∀ (s : blocking.SharedState D) (r : AsyncOpStatus D ×
        blocking.SharedState D),
      blocking.AsyncOpClient.wait pending s = some r →
      r.2.cancelled = s.cancelled := by
  induction pending with
  | nil =>
    intro s r h
    rw [blocking.AsyncOpClient.wait.eq_def] at h
    split at h
    · exact absurd h (by simp)
    · simp only [Option.some_inj] at h
      rw [h.symm]
      rfl
  | cons st rest ih =>
    intro s r h
    rw [blocking.AsyncOpClient.wait.eq_def] at h
    split at h
    · exact ih (blocking.sendUpdate s st) r h
    · simp only [Option.some_inj] at h
      rw [h.symm]
      rfl

/-- Claim C7: for every shared cancellation flag, calling cancel any number
of times is equivalent to calling it once, and is_cancelled reads false
before the first cancel and true ever after, over every interleaving of
cancel, status-read and send operations for the lifetime of the flag;
wait never changes the flag either. -/
theorem C7_cancel_idempotent {D : AsyncOpStatusDetails}
    (initial : AsyncOpStatus D) (ops : List (blocking.ClientServerOp D)) :
    (blocking.BlockingServerConfig.cancelled
        (blocking.runOps ((blocking.AsyncOp.new initial).config) ops) =
      blocking.hasCancel ops) ∧
    (∀ s : blocking.SharedState D,
      blocking.AsyncOpClient.cancel (blocking.AsyncOpClient.cancel s) =
        blocking.AsyncOpClient.cancel s) ∧
    (∀ (pending : List (AsyncOpStatus D)) (s : blocking.SharedState D)
       (r : AsyncOpStatus D × blocking.SharedState D),
      blocking.AsyncOpClient.wait pending s = some r →
      blocking.BlockingServerConfig.cancelled r.2 =
        blocking.BlockingServerConfig.cancelled s) := by
  refine ⟨?_, ?_, ?_⟩
  · rw [show blocking.BlockingServerConfig.cancelled
        (blocking.runOps ((blocking.AsyncOp.new initial).config) ops) =
      (blocking.runOps ((blocking.AsyncOp.new initial).config) ops).cancelled
      from rfl]
    rw [runOps_cancelled ops ((blocking.AsyncOp.new initial).config)]
    simp [blocking.AsyncOp.new, AsyncOpServer.new]
  · intro s
    simp [blocking.AsyncOpClient.cancel]
  · intro pending s r h
    exact wait_preserves_cancelled pending s r h

/-- Claim C7, witness: cancelling amid status reads and sends flips the flag
exactly once, and a wait leaves it untouched. -/
theorem C7_cancel_idempotent_witness :
    (blocking.BlockingServerConfig.cancelled
        (blocking.runOps ((blocking.AsyncOp.new PENDING).config)
          [blocking.ClientServerOp.statusOp, blocking.ClientServerOp.cancelOp,
           blocking.ClientServerOp.cancelOp,
           blocking.ClientServerOp.sendOp DONE]) = true) ∧
    (blocking.BlockingServerConfig.cancelled
        ((PENDING,
          (⟨⟨PENDING, true⟩, false⟩ : blocking.SharedState NoDetailsPolicy)) :
            StandardAsyncOpStatus ×
              blocking.SharedState NoDetailsPolicy).2 =
      blocking.BlockingServerConfig.cancelled
        (⟨⟨PENDING, false⟩, false⟩ :
          blocking.SharedState NoDetailsPolicy)) := by
  constructor
  · exact (C7_cancel_idempotent PENDING
      [blocking.ClientServerOp.statusOp, blocking.ClientServerOp.cancelOp,
       blocking.ClientServerOp.cancelOp,
       blocking.ClientServerOp.sendOp DONE]).1
  · exact (C7_cancel_idempotent PENDING []).2.2 []
      ⟨⟨PENDING, false⟩, false⟩
      (PENDING, ⟨⟨PENDING, true⟩, false⟩) rfl

/-! ## Claims about the type-erased callback channel and callback backend -/

/-- notify on the matching Details code invokes the stored callback. -/
theorem notify_self {Code : Type} [DecidableEq Code]
    {interp : Code → AsyncOpStatusDetails} {κ : Type} (c : Code)
    (cb : κ → AsyncOpStatus (interp c) → κ) (k : κ)
    (st : AsyncOpStatus (interp c)) :
    inline.AnyInlineCallbackChannel.notify
        (⟨c, ⟨cb, k⟩⟩ : inline.AnyInlineCallbackChannel Code interp κ) c st =
      some ⟨c, ⟨cb, cb k st⟩⟩ := by
  unfold inline.AnyInlineCallbackChannel.notify
  split
  · rfl
  · next hne => exact absurd rfl hne

/-- notify on a mismatched Details code panics without invoking anything. -/
theorem notify_mismatch {Code : Type} [DecidableEq Code]
    {interp : Code → AsyncOpStatusDetails} {κ : Type} (c d : Code)
    (hne : c ≠ d) (ch : inline.InlineCallbackChannel (interp c) κ)
    (st : AsyncOpStatus (interp d)) :
    inline.AnyInlineCallbackChannel.notify
        (⟨c, ch⟩ : inline.AnyInlineCallbackChannel Code interp κ) d st =
      none := by
  unfold inline.AnyInlineCallbackChannel.notify
  split
  · next heq => exact absurd heq hne
  · rfl

/-- Claim C5: for the type-erased callback channel, is_compatible returns
true exactly when the queried Details code is the one used at channel
construction time; notify with any mismatched Details code fails loudly
(panics) without invoking the callback or returning a wrong value; with the
matching code it invokes the stored callback with the given status. -/
theorem C5_type_erasure (Code : Type) [DecidableEq Code]
    (interp : Code → AsyncOpStatusDetails) (κ : Type)
    (e : inline.InlineCallbackExecutor) (c d : Code)
    (cb : κ → AsyncOpStatus (interp c) → κ) (k : κ) :
    ((e.setup_callback c cb k).is_compatible d = true ↔ d = c) ∧
    (d ≠ c → ∀ st : AsyncOpStatus (interp d),
      (e.setup_callback c cb k).notify d st = none) ∧
    (∀ st : AsyncOpStatus (interp c),
      (e.setup_callback c cb k).notify c st =
        some (e.setup_callback c cb (cb k st))) := by
  refine ⟨?_, ?_, ?_⟩
  · simp [inline.AnyInlineCallbackChannel.is_compatible,
      inline.InlineCallbackExecutor.setup_callback, eq_comm]
  · intro hne st
    exact notify_mismatch c d (fun hcd => hne hcd.symm) _ st
  · intro st
    exact notify_self c cb k st

/-- Claim C5, witness: the standard channel recognizes exactly the NoDetails
code, rejects a Nat-details notification, and runs its callback on DONE. -/
theorem C5_type_erasure_witness :
    (stdChannel.is_compatible true = true) ∧
    (¬ stdChannel.is_compatible false = true) ∧
    (stdChannel.notify false (AsyncOpStatus.Pending (0 : Nat)) = none) ∧
    (stdChannel.notify true DONE =
      some (inline.InlineCallbackExecutor.setup_callback {} true stdLogCb
        [DONE])) := by
  refine ⟨?_, ?_, ?_, ?_⟩
  · exact (C5_type_erasure Bool stdInterp (List StandardAsyncOpStatus)
      {} true true stdLogCb []).1.mpr rfl
  · intro h
    exact absurd ((C5_type_erasure Bool stdInterp
      (List StandardAsyncOpStatus) {} true false stdLogCb []).1.mp h)
      (by decide)
  · exact (C5_type_erasure Bool stdInterp (List StandardAsyncOpStatus)
      {} true false stdLogCb []).2.1 (by decide)
      (AsyncOpStatus.Pending (0 : Nat))
  · exact (C5_type_erasure Bool stdInterp (List StandardAsyncOpStatus)
      {} true true stdLogCb []).2.2 DONE

/-- Running a terminal-safe status sequence through the callback backend
folds the client-supplied callback over exactly the submitted statuses, in
submission order. -/
theorem runUpdates_callback {Code : Type} [DecidableEq Code]
    {interp : Code → AsyncOpStatusDetails} {κ : Type} (Dc : Code)
    (cb : κ → AsyncOpStatus (interp Dc) → κ)
    (l : List (AsyncOpStatus (interp Dc))) :
    ∀ (k : κ) (fl : Bool),
      (∀ st ∈ l.dropLast, is_final st = false) →
      runUpdates
          (⟨(⟨Dc, ⟨cb, k⟩⟩, fl), false⟩ :
            AsyncOpServer (callback.CallbackServerConfig Code interp κ Dc))
          l =
        some ⟨(⟨Dc, ⟨cb, l.foldl cb k⟩⟩, fl), flagAfter false l⟩ := by
  induction l with
  | nil =>
    intro k fl _
    simp [runUpdates, flagAfter]
  | cons st rest ih =>
    intro k fl hb
    have hstep :
        (⟨(⟨Dc, ⟨cb, k⟩⟩, fl), false⟩ :
          AsyncOpServer
            (callback.CallbackServerConfig Code interp κ Dc)).update st =
        some ⟨(⟨Dc, ⟨cb, cb k st⟩⟩, fl), is_final st⟩ := by
      rw [update_eq_of_active _ st rfl]
      rw [show (callback.CallbackServerConfig Code interp κ Dc).update
            (⟨Dc, ⟨cb, k⟩⟩, fl) st = some (⟨Dc, ⟨cb, cb k st⟩⟩, fl) from by
          simp [callback.CallbackServerConfig, notify_self]]
      simp
    cases rest with
    | nil =>
      rw [runUpdates_cons_some _ _ _ _ hstep]
      simp [runUpdates, flagAfter]
    | cons st2 rest2 =>
      have hst : is_final st = false := by
        apply hb
        simp [List.dropLast_cons_of_ne_nil]
      rw [runUpdates_cons_some _ _ _ _ hstep, hst]
      rw [ih (cb k st) fl (by
        intro x hx
        apply hb
        rw [List.dropLast_cons_of_ne_nil (by simp)]
        exact List.mem_cons_of_mem _ hx)]
      simp [flagAfter_cons, hst]

/-- Claim C6: for the callback backend with the inline executor, every
update on an Active server synchronously invokes the client-supplied
callback exactly once, with exactly the submitted status, within the update
call itself; hence N terminal-safe updates fire the callback exactly N
times, with the exact statuses passed, in submission order (the callback's
state is folded over the submitted list). -/
theorem C6_callback_fires_each_update (Code : Type) [DecidableEq Code]
    (interp : Code → AsyncOpStatusDetails) (κ : Type) (Dc : Code)
    (e : inline.InlineCallbackExecutor)
    (cb : κ → AsyncOpStatus (interp Dc) → κ) (k : κ)
    (initial : AsyncOpStatus (interp Dc))
    (l : List (AsyncOpStatus (interp Dc))) :
    (∀ (k0 : κ) (fl : Bool) (st : AsyncOpStatus (interp Dc)),
      (⟨(⟨Dc, ⟨cb, k0⟩⟩, fl), false⟩ :
        AsyncOpServer
          (callback.CallbackServerConfig Code interp κ Dc)).update st =
        some ⟨(⟨Dc, ⟨cb, cb k0 st⟩⟩, fl), is_final st⟩) ∧
    (is_final initial = false →
      (∀ st ∈ l.dropLast, is_final st = false) →
      runUpdates (callback.new_async_op Dc cb k e initial) l =
        some ⟨(⟨Dc, ⟨cb, l.foldl cb k⟩⟩, false), flagAfter false l⟩) := by
  constructor
  · intro k0 fl st
    rw [update_eq_of_active _ st rfl]
    rw [show (callback.CallbackServerConfig Code interp κ Dc).update
          (⟨Dc, ⟨cb, k0⟩⟩, fl) st = some (⟨Dc, ⟨cb, cb k0 st⟩⟩, fl) from by
        simp [callback.CallbackServerConfig, notify_self]]
    simp
  · intro hinit hl
    rw [show callback.new_async_op Dc cb k e initial =
        (⟨(⟨Dc, ⟨cb, k⟩⟩, false), false⟩ :
          AsyncOpServer
            (callback.CallbackServerConfig Code interp κ Dc)) from by
      rw [show callback.new_async_op Dc cb k e initial =
          ⟨(⟨Dc, ⟨cb, k⟩⟩, false), is_final initial⟩ from rfl, hinit]]
    exact runUpdates_callback Dc cb l k false hl

/-- Claim C6, witness: from PENDING, updating with RUNNING then DONE fires
the logging callback exactly twice, with those statuses, in that order. -/
theorem C6_callback_fires_each_update_witness :
    runUpdates (stdCallbackOp PENDING) [RUNNING, DONE] =
      some ⟨(⟨true, ⟨stdLogCb, [RUNNING, DONE]⟩⟩, false), true⟩ := by
  exact (C6_callback_fires_each_update Bool stdInterp
    (List StandardAsyncOpStatus) true {} stdLogCb [] PENDING
    [RUNNING, DONE]).2 rfl
    (by
      intro st hst
      rcases List.mem_singleton.mp hst with rfl
      rfl)

/-- Claim C9: constructing a server (for any backend) never forwards the
initial status through the backend's send: the configuration state is stored
untouched and no callback fires until the first update call; the blocking
backend's client observes the initial status only because its shared channel
state is seeded with it separately at construction; and for the callback
backend, an operation created with a terminal initial status and then
dropped without any update never invokes the callback at all. -/
theorem C9_construction_sends_nothing (Code : Type) [DecidableEq Code]
    (interp : Code → AsyncOpStatusDetails) (κ : Type) (Dc : Code)
    (e : inline.InlineCallbackExecutor)
    (cb : κ → AsyncOpStatus (interp Dc) → κ) (k : κ)
    (initial : AsyncOpStatus (interp Dc)) :
    (∀ (D : AsyncOpStatusDetails) (C : AsyncOpServerConfig D) (cfg : C.State)
       (init0 : AsyncOpStatus D),
      (AsyncOpServer.new C cfg init0).config = cfg) ∧
    (∀ (D : AsyncOpStatusDetails) (init0 : AsyncOpStatus D),
      (blocking.AsyncOp.new init0).config.status_lock.status = init0 ∧
      (blocking.AsyncOp.new init0).config.status_lock.read = false) ∧
    ((callback.new_async_op Dc cb k e initial).config.1.holder.cbState
      = k) ∧
    (is_final initial = true →
      (callback.new_async_op Dc cb k e initial).drop =
        some (callback.new_async_op Dc cb k e initial)) := by
  refine ⟨fun D C cfg init0 => rfl, fun D init0 => ⟨rfl, rfl⟩, rfl, ?_⟩
  · intro h
    exact drop_eq_of_final _ h

/-- Claim C9, witness: an operation created pre-completed with DONE and
dropped without updates never runs its callback (its log stays empty). -/
theorem C9_construction_sends_nothing_witness :
    ((stdCallbackOp DONE).drop = some (stdCallbackOp DONE)) ∧
    ((stdCallbackOp DONE).config.1.holder.cbState =
      ([] : List StandardAsyncOpStatus)) := by
  constructor
  · exact (C9_construction_sends_nothing Bool stdInterp
      (List StandardAsyncOpStatus) true {} stdLogCb [] DONE).2.2.2 rfl
  · exact (C9_construction_sends_nothing Bool stdInterp
      (List StandardAsyncOpStatus) true {} stdLogCb [] DONE).2.2.1
